import Mathlib

/-!
The rdb command-line front end (`cmd.go`).

A shallow embedding of `cmd.go`: the help text, the `separators` flag value,
the flag set that `main` registers, the parsing of the argument vector by the
Go `flag` package, the options list `main` builds and the dispatch to the
helpers of package `helper`.

Conventions.

* A Go `string` is a Lean `String`. The flag parser only ever tests for the
  ASCII characters `-` and `=`, so looking at characters instead of bytes
  cuts a token at the same places.
* `main` is a function from the argument vector (and the environment it
  runs in) to the ordered list of the effects it performs (`Event`).
* The world outside `cmd.go` is the record `Env`: how `strconv.ParseInt`
  reads an integer, whether `os.Create` succeeds, and what error a helper
  returns.
* The helpers themselves live in package `helper`; a call to one of them is
  recorded as a `Call` carrying the arguments that the callee receives.
-/

namespace Rdb

/-! ## The help text -/

/-- The lines of the raw string constant `help` (cmd.go, lines 12 to 39). The
constant opens with a newline and closes with one, hence the two empty
strings. -/
def helpLines : List String :=
  [ ""
  , "This is a tool to parse Redis' RDB files"
  , "Options:"
  , "  -c command, including: json/memory/aof/bigkey/flamegraph/ssv"
  , "  -o output file path"
  , "  -n number of result, using in "
  , "  -port listen port for flame graph web service"
  , "  -sep separator for flamegraph, rdb will separate key by it, default value is \":\". "
  , "\t\tsupporting multi separators: -sep sep1 -sep sep2 "
  , "  -regex using regex expression filter keys"
  , "  -no-expired filter expired keys"
  , "  -field including: [db]/key/expiration/size/type/encoding/value/values/hash/members/entries"
  , ""
  , "Examples:"
  , "parameters between '[' and ']' is optional"
  , "1. convert rdb to json"
  , "  rdb -c json -o dump.json dump.rdb"
  , "2. generate memory report"
  , "  rdb -c memory -o memory.csv dump.rdb"
  , "3. convert to aof file"
  , "  rdb -c aof -o dump.aof dump.rdb"
  , "4. get largest keys"
  , "  rdb -c bigkey [-o dump.aof] [-n 10] dump.rdb"
  , "5. draw flamegraph"
  , "  rdb -c flamegraph [-port 16379] [-sep :] dump.rdb"
  , "6. convert rdb to [json/ssv] with fields"
  , "  rdb -c ssv -fields key,size,type -regex FULL -o dump.list dump.rdb"
  , "" ]

/-- The constant `help`. -/
def help : String := String.intercalate "\n" helpLines

/-- The entries of the option list of the help text: the lines between the
heading `Options:` and the blank line that ends the list. -/
def helpOptionLines : List String :=
  ((helpLines.dropWhile (fun l => l != "Options:")).drop 1).takeWhile (fun l => l != "")

/-- The option name an entry of the option list starts with: the entry is
indented by two blanks, then comes `-name`, then a blank. Continuation lines
(which start with a tab) name no option. -/
def optionNameOfLine (l : String) : Option String :=
  match l.data with
  | ' ' :: ' ' :: '-' :: rest => some (String.mk (rest.takeWhile (fun c => c != ' ')))
  | _ => none

/-- The option names the help text's option list prints, in order. -/
def helpOptionNames : List String := helpOptionLines.filterMap optionNameOfLine

/-! ## `type separators []string` -/

/-- The type `separators`: a slice of strings. -/
abbrev separators := List String

/-- The method `(*separators).Set`: `*s = append(*s, value); return nil`. The
result is the new value of `*s` and the returned error (`none` for `nil`). -/
def separators.Set (s : separators) (value : String) : separators × Option String :=
  (s ++ [value], none)

/-- A Go `string`. -/
abbrev GoString := String

/-- The method `(*separators).String`: `strings.Join(*s, " ")`. -/
def separators.String (s : separators) : GoString := " ".intercalate s

/-! ## The environment and the variables of `main` -/

/-- A value returned by one of `helper.WithRegexOption`,
`helper.WithNoExpiredOption`, `helper.WithFieldOption`. These constructors
live in package `helper`; the value is kept symbolic, carrying the argument
it was built from. -/
inductive HelperOption where
  | WithRegexOption (expr : String)
  | WithNoExpiredOption
  | WithFieldOption (fields : String)
  deriving DecidableEq

/-- A Go `interface{}` value as it can occur in an argument list of `main`:
either one option value, or a whole `[]interface{}` slice boxed into a single
interface value. -/
inductive Iface where
  | value (o : HelperOption)
  | slice (xs : List HelperOption)
  deriving DecidableEq

/-- The arguments a variadic parameter `options ...interface{}` receives from
a call site. With the spread form `f(xs...)` the slice is passed unchanged;
with the plain form `f(xs)` the callee gets a fresh one-element slice whose
only element is `xs` itself. -/
def variadic (spread : Bool) (xs : List HelperOption) : List Iface :=
  if spread then xs.map Iface.value else [Iface.slice xs]

/-- An `*os.File` value handed to a helper. -/
inductive File where
  | stdout
  | created (path : String)
  | nilFile
  deriving DecidableEq

/-- Modelled from the spec: the declarations of the six helpers of package
`helper`, which are not part of `cmd.go`. Each takes the fixed parameters that
`main` passes, followed by a variadic parameter of interface values (the
options), as the five call sites that spread the options list require and as
the specification says of every helper, `ToAOF` included. A value of this
type is one call from `main`, with the arguments the callee receives; the
last field is the content of the variadic parameter. -/
inductive Call where
  | ToJsons (src output : String) (options : List Iface)
  | ToSSV (src output : String) (options : List Iface)
  | ToAOF (src output : String) (options : List Iface)
  | MemoryProfile (src output : String) (options : List Iface)
  | FindBiggestKeys (src : String) (n : Int) (w : File) (options : List Iface)
  | FlameGraph (src : String) (port : Int) (seps : List String) (options : List Iface)
  deriving DecidableEq

/-- What `main` depends on outside `cmd.go`. -/
structure Env where
  /-- The function `strconv.ParseInt(s, 0, strconv.IntSize)`, by which an `IntVar` flag reads
  its value; `none` when it returns an error. -/
  atoi : String → Option Int
  /-- The error `os.Create(path)` returns, `none` when the file is created. -/
  createErr : String → Option String
  /-- The error a helper call returns, `none` for `nil`. -/
  helperErr : Call → Option String

/-- The local variables of `main` that the flags are bound to. -/
structure Vars where
  cmd : String
  output : String
  n : Int
  port : Int
  seps : separators
  regexExpr : String
  noExpired : Bool
  fields : String
  deriving DecidableEq

/-- The values of the variables before parsing: the zero value of `seps` and
the defaults given to `StringVar`, `IntVar` and `BoolVar`. -/
def Vars.init : Vars :=
  { cmd := "", output := "", n := 0, port := 0, seps := [],
    regexExpr := "", noExpired := false, fields := "" }

/-! ## The flag set -/

/-- The variable a registered flag is bound to. -/
inductive Target where
  | cmd | output | n | port | seps | regexExpr | noExpired | fields
  deriving DecidableEq

/-- The flags `main` registers (cmd.go, lines 62 to 69), by name, in
registration order. -/
def formal : List (String × Target) :=
  [ ("c", .cmd), ("o", .output), ("n", .n), ("port", .port), ("sep", .seps),
    ("regex", .regexExpr), ("no-expired", .noExpired), ("fields", .fields) ]

/-- The names of the registered flags. -/
def flagNames : List String := formal.map Prod.fst

/-- The function `strconv.ParseBool`, by which a `BoolVar` flag reads its
value. -/
def parseBool (s : String) : Option Bool :=
  if s = "1" ∨ s = "t" ∨ s = "T" ∨ s = "TRUE" ∨ s = "true" ∨ s = "True" then some true
  else if s = "0" ∨ s = "f" ∨ s = "F" ∨ s = "FALSE" ∨ s = "false" ∨ s = "False" then some false
  else none

/-- Whether the flag's value is a boolean flag (`IsBoolFlag`), which takes no
argument of its own. -/
def Target.isBoolFlag : Target → Bool
  | .noExpired => true
  | _ => false

/-- The method `Set` of the value registered for each flag: `none` when it
returns an error, the updated variables otherwise. -/
def Target.set (env : Env) (t : Target) (value : String) (v : Vars) : Option Vars :=
  match t with
  | .cmd => some { v with cmd := value }
  | .output => some { v with output := value }
  | .n => (env.atoi value).map (fun i => { v with n := i })
  | .port => (env.atoi value).map (fun i => { v with port := i })
  | .seps =>
    match separators.Set v.seps value with
    | (s, none) => some { v with seps := s }
    | (_, some _) => none
  | .regexExpr => some { v with regexExpr := value }
  | .noExpired => (parseBool value).map (fun b => { v with noExpired := b })
  | .fields => some { v with fields := value }

/-- How `parseOne` reads the first remaining argument. -/
inductive Token where
  /-- Not a flag (shorter than two bytes, or not starting with `-`): parsing
  stops and the argument stays. -/
  | positional
  /-- The argument `--`: parsing stops and the argument is consumed. -/
  | terminator
  /-- Bad flag syntax. -/
  | bad
  /-- A flag, with the value after `=` when there is one. -/
  | flag (name : String) (value : Option String)
  deriving DecidableEq

/-- Cuts at the first `=`: the part before it and, when there is one, the part
after it. -/
def splitEq : List Char → List Char × Option (List Char)
  | [] => ([], none)
  | c :: cs =>
    if c = '=' then ([], some cs)
    else ((c :: (splitEq cs).1), (splitEq cs).2)

/-- The lexical part of `flag.(*FlagSet).parseOne`. -/
def classify (s : String) : Token :=
  match s.data with
  | [] => .positional
  | [_] => .positional
  | c0 :: c1 :: tl =>
    if c0 ≠ '-' then .positional
    else if c1 = '-' ∧ tl = [] then .terminator
    else
      match (if c1 = '-' then tl else c1 :: tl) with
      | [] => .bad
      | h :: t =>
        if h = '-' ∨ h = '=' then .bad
        else .flag (String.mk (h :: (splitEq t).1)) ((splitEq t).2.map String.mk)

/-- The errors of `flag.(*FlagSet).Parse`. -/
inductive FlagError where
  /-- The error `flag.ErrHelp`: `-h` or `-help` given and not registered. -/
  | help
  /-- The error "bad flag syntax". -/
  | badFlag (arg : String)
  /-- The error "flag provided but not defined". -/
  | notDefined (name : String)
  /-- The error "flag needs an argument". -/
  | needsArgument (name : String)
  /-- The error "invalid boolean value". -/
  | invalidBool (value name : String)
  /-- The error "invalid value ... for flag". -/
  | invalidValue (value name : String)
  deriving DecidableEq

/-- The loop of `flag.(*FlagSet).Parse` over `parseOne`: the variables after
parsing and the arguments left over (`flagSet.Args()`), or the first error. -/
def Parse (env : Env) : Vars → List String → Except FlagError (Vars × List String)
  | v, [] => .ok (v, [])
  | v, s :: args =>
    match classify s with
    | .positional => .ok (v, s :: args)
    | .terminator => .ok (v, args)
    | .bad => .error (.badFlag s)
    | .flag name value =>
      match formal.lookup name with
      | none => if name = "help" ∨ name = "h" then .error .help else .error (.notDefined name)
      | some t =>
        if t.isBoolFlag then
          match t.set env (value.getD "true") v with
          | none => .error (.invalidBool (value.getD "true") name)
          | some v2 => Parse env v2 args
        else
          match value with
          | some x =>
            match t.set env x v with
            | none => .error (.invalidValue x name)
            | some v2 => Parse env v2 args
          | none =>
            match args with
            | [] => .error (.needsArgument name)
            | x :: args2 =>
              match t.set env x v with
              | none => .error (.invalidValue x name)
              | some v2 => Parse env v2 args2

/-- The method `flagSet.Arg(i)`: the i-th remaining argument, the empty string
when there is none. -/
def Arg (rest : List String) (i : Nat) : String := rest.getD i ""

/-! ## `main` -/

/-- What `main` does, as seen from outside. -/
inductive Event where
  /-- The flag set reports a parse error (message and usage on standard error). -/
  | flagFailure (e : FlagError)
  /-- The call `os.Exit(code)`. -/
  | osExit (code : Nat)
  /-- The builtin `println(s)`. -/
  | println (s : String)
  /-- The call `fmt.Printf(format, arg)`, the argument being an error. -/
  | printf (format : String) (arg : String)
  /-- The call `os.Create(path)`. -/
  | osCreate (path : String)
  /-- A call into package `helper`. -/
  | call (c : Call)
  /-- The deferred `outputFile.Close()`. -/
  | close (f : File)
  /-- The receive `<-make(chan struct{})`, which never returns. -/
  | blockForever
  deriving DecidableEq

/-- The options list `main` builds (cmd.go, lines 83 to 92). -/
def buildOptions (v : Vars) : List HelperOption :=
  let options : List HelperOption := []
  let options :=
    if v.regexExpr ≠ "" then options ++ [HelperOption.WithRegexOption v.regexExpr] else options
  let options :=
    if v.noExpired = true then options ++ [HelperOption.WithNoExpiredOption] else options
  let options :=
    if v.fields ≠ "" then options ++ [HelperOption.WithFieldOption v.fields] else options
  options

/-- The final `if err != nil` of `main` (cmd.go, lines 129 to 132). -/
def reportErr (err : Option String) : List Event :=
  match err with
  | some e => [Event.printf "error: %v\n" e]
  | none => []

/-- The `switch cmd` of `main` (cmd.go, lines 94 to 132). -/
def dispatch (env : Env) (v : Vars) (src : String) : List Event :=
  let options := buildOptions v
  if v.cmd = "json" then
    let c := Call.ToJsons src v.output (variadic true options)
    Event.call c :: reportErr (env.helperErr c)
  else if v.cmd = "ssv" then
    let c := Call.ToSSV src v.output (variadic true options)
    Event.call c :: reportErr (env.helperErr c)
  else if v.cmd = "aof" then
    let c := Call.ToAOF src v.output (variadic false options)
    Event.call c :: reportErr (env.helperErr c)
  else if v.cmd = "memory" then
    let c := Call.MemoryProfile src v.output (variadic true options)
    Event.call c :: reportErr (env.helperErr c)
  else if v.cmd = "bigkey" then
    if v.output = "" then
      let c := Call.FindBiggestKeys src v.n File.stdout (variadic true options)
      Event.call c :: reportErr (env.helperErr c)
    else
      match env.createErr v.output with
      | none =>
        let c := Call.FindBiggestKeys src v.n (File.created v.output) (variadic true options)
        [Event.osCreate v.output, Event.call c] ++ reportErr (env.helperErr c)
          ++ [Event.close (File.created v.output)]
      | some e =>
        let c := Call.FindBiggestKeys src v.n File.nilFile (variadic true options)
        [Event.osCreate v.output, Event.printf "open output faild: %v" e, Event.call c]
          ++ reportErr (env.helperErr c) ++ [Event.close File.nilFile]
  else if v.cmd = "flamegraph" then
    let c := Call.FlameGraph src v.port v.seps (variadic true options)
    match env.helperErr c with
    | some e => [Event.call c, Event.printf "error: %v\n" e]
    | none => [Event.call c, Event.blockForever]
  else
    [Event.println "unknown command"]

/-- The function `main`. The flag set is created with `flag.ExitOnError`, so a
parse error ends the process: status 0 for `flag.ErrHelp`, 2 otherwise. -/
def main (env : Env) (args : List String) : List Event :=
  match Parse env Vars.init args with
  | .error e => [Event.flagFailure e, Event.osExit (if e = FlagError.help then 0 else 2)]
  | .ok (v, rest) =>
    let src := Arg rest 0
    if v.cmd = "" then [Event.println help]
    else if src = "" then [Event.println "src file is required"]
    else dispatch env v src

/-- The helper calls in a run, in order. -/
def helperCalls (t : List Event) : List Call :=
  t.filterMap (fun e => match e with
    | Event.call c => some c
    | _ => none)

/-- An environment for concrete runs: integers are read by the given table,
`os.Create` fails on the listed paths, helpers return no error. -/
def Env.simple (ints : List (String × Int)) (unwritable : List String) : Env :=
  { atoi := fun s => ints.lookup s,
    createErr := fun p => if p ∈ unwritable then some "no such file or directory" else none,
    helperErr := fun _ => none }

/-- The place of an option in the order in which `main` appends them. -/
def HelperOption.rank : HelperOption → Nat
  | .WithRegexOption _ => 0
  | .WithNoExpiredOption => 1
  | .WithFieldOption _ => 2

/-- The argument vector `-sep s1 -sep s2 ... -sep sk`. -/
def sepArgs : List String → List String
  | [] => []
  | s :: ss => "-sep" :: s :: sepArgs ss

/-- Whether an argument reads as the flag of the given name (in any of the
forms `-name`, `--name`, `-name=x`, `--name=x`). -/
def readsAsFlag (flagName : String) (a : String) : Bool :=
  match classify a with
  | Token.flag name _ => name == flagName
  | _ => false

/-- Whether an argument reads as the flag `sep`. -/
def isSepFlag (a : String) : Bool := readsAsFlag "sep" a

/-- Modelled from the spec: the separator list `helper.FlameGraph` splits the
keys by, given the list it is called with. The helper is code of package
`helper` and not part of `cmd.go`. It splits each key by the configured
separator strings, one or more; when none is configured it takes the default
that the help text gives for `-sep`, the single separator ":". -/
def FlameGraph.usedSeparators (seps : List String) : List String :=
  match seps with
  | [] => [":"]
  | s :: ss => s :: ss

/-- The separator lists the flamegraph command works with in a run: one for
each call of `FlameGraph`. -/
def flamegraphSeparators (t : List Event) : List (List String) :=
  (helperCalls t).filterMap (fun c => match c with
    | Call.FlameGraph _ _ seps _ => some (FlameGraph.usedSeparators seps)
    | _ => none)

/-! ## The options list -/

/-- C3: the options list `main` builds holds exactly: a regex option carrying
the `-regex` string when that string is non-empty, a no-expired option when
`-no-expired` is set, a field option carrying the `-fields` string when that
string is non-empty. They come in the order regex, no-expired, field, each at
most once, and the length of the list is the number of the three flags that
are set. -/
theorem buildOptions_spec (v : Vars) :
    (∀ o, o ∈ buildOptions v ↔
      (o = HelperOption.WithRegexOption v.regexExpr ∧ v.regexExpr ≠ "") ∨
      (o = HelperOption.WithNoExpiredOption ∧ v.noExpired = true) ∨
      (o = HelperOption.WithFieldOption v.fields ∧ v.fields ≠ "")) ∧
    (buildOptions v).Pairwise (fun a b => a.rank < b.rank) ∧
    (buildOptions v).Nodup ∧
    (buildOptions v).length =
      (if v.regexExpr ≠ "" then 1 else 0) + (if v.noExpired = true then 1 else 0)
        + (if v.fields ≠ "" then 1 else 0) := by
  by_cases h1 : v.regexExpr = "" <;> by_cases h2 : v.noExpired = true <;>
    by_cases h3 : v.fields = "" <;>
    simp [buildOptions, h1, h2, h3, HelperOption.rank]

/-- C3 at the flags `-regex ^a -no-expired -fields key`: the list is the three
options in order. -/
theorem buildOptions_spec_witness :
    buildOptions { Vars.init with regexExpr := "^a", noExpired := true, fields := "key" }
      = [HelperOption.WithRegexOption "^a", HelperOption.WithNoExpiredOption,
         HelperOption.WithFieldOption "key"] ∧
    (buildOptions { Vars.init with regexExpr := "^a", noExpired := true, fields := "key" }).length
      = 3 :=
  ⟨by decide,
   by
    have h := (buildOptions_spec
      { Vars.init with regexExpr := "^a", noExpired := true, fields := "key" }).2.2.2
    simpa [Vars.init] using h⟩

/-! ## Dispatch -/

/-- The helper calls of `main` once parsing has succeeded with a command and
a source file: those of the `switch`. -/
theorem main_eq_dispatch (env : Env) (args : List String) (v : Vars) (rest : List String)
    (hp : Parse env Vars.init args = .ok (v, rest)) (hc : v.cmd ≠ "")
    (hsrc : Arg rest 0 ≠ "") :
    main env args = dispatch env v (Arg rest 0) := by
  simp [main, hp, hc, hsrc]

/-- The calls recorded by the final error report: none. -/
theorem helperCalls_reportErr (e : Option String) (t : List Event) :
    helperCalls (reportErr e ++ t) = helperCalls t := by
  cases e <;> simp [reportErr, helperCalls]

/-- The calls of a run that starts with a helper call and ends with the error
report. -/
theorem helperCalls_call_reportErr (c : Call) (e : Option String) :
    helperCalls (Event.call c :: reportErr e) = [c] := by
  cases e <;> simp [reportErr, helperCalls]

/-- The command `json` calls `ToJsons` once. -/
theorem dispatch_json (env : Env) (v : Vars) (src : String) (hc : v.cmd = "json") :
    helperCalls (dispatch env v src)
      = [Call.ToJsons src v.output (variadic true (buildOptions v))] := by
  simp only [dispatch, hc, if_true]
  exact helperCalls_call_reportErr _ _

/-- The command `ssv` calls `ToSSV` once. -/
theorem dispatch_ssv (env : Env) (v : Vars) (src : String) (hc : v.cmd = "ssv") :
    helperCalls (dispatch env v src)
      = [Call.ToSSV src v.output (variadic true (buildOptions v))] := by
  simp only [dispatch, hc]
  simp only [show ¬ ("ssv" = "json") by decide, if_false, if_true]
  exact helperCalls_call_reportErr _ _

/-- The command `aof` calls `ToAOF` once. -/
theorem dispatch_aof (env : Env) (v : Vars) (src : String) (hc : v.cmd = "aof") :
    helperCalls (dispatch env v src)
      = [Call.ToAOF src v.output (variadic false (buildOptions v))] := by
  simp only [dispatch, hc]
  simp only [show ¬ ("aof" = "json") by decide, show ¬ ("aof" = "ssv") by decide,
    if_false, if_true]
  exact helperCalls_call_reportErr _ _

/-- The command `memory` calls `MemoryProfile` once. -/
theorem dispatch_memory (env : Env) (v : Vars) (src : String) (hc : v.cmd = "memory") :
    helperCalls (dispatch env v src)
      = [Call.MemoryProfile src v.output (variadic true (buildOptions v))] := by
  simp only [dispatch, hc]
  simp only [show ¬ ("memory" = "json") by decide, show ¬ ("memory" = "ssv") by decide,
    show ¬ ("memory" = "aof") by decide, if_false, if_true]
  exact helperCalls_call_reportErr _ _

/-- The command `bigkey` calls `FindBiggestKeys` once: with standard output
when `-o` is empty, with the created file when `os.Create` succeeds, with a
nil file when it fails. -/
theorem dispatch_bigkey (env : Env) (v : Vars) (src : String) (hc : v.cmd = "bigkey") :
    helperCalls (dispatch env v src)
      = [Call.FindBiggestKeys src v.n
          (if v.output = "" then File.stdout
           else if env.createErr v.output = none then File.created v.output
           else File.nilFile)
          (variadic true (buildOptions v))] := by
  simp only [dispatch, hc]
  simp only [show ¬ ("bigkey" = "json") by decide, show ¬ ("bigkey" = "ssv") by decide,
    show ¬ ("bigkey" = "aof") by decide, show ¬ ("bigkey" = "memory") by decide,
    if_false, if_true]
  by_cases ho : v.output = ""
  · simp only [ho, if_true]
    exact helperCalls_call_reportErr _ _
  · simp only [ho, if_false]
    cases hce : env.createErr v.output with
    | none =>
      simp only [if_true]
      generalize env.helperErr _ = e
      cases e <;> simp [reportErr, helperCalls]
    | some e0 =>
      simp only [reduceCtorEq, if_false]
      generalize env.helperErr _ = e
      cases e <;> simp [reportErr, helperCalls]

/-- The command `flamegraph` calls `FlameGraph` once. -/
theorem dispatch_flamegraph (env : Env) (v : Vars) (src : String)
    (hc : v.cmd = "flamegraph") :
    helperCalls (dispatch env v src)
      = [Call.FlameGraph src v.port v.seps (variadic true (buildOptions v))] := by
  simp only [dispatch, hc]
  simp only [show ¬ ("flamegraph" = "json") by decide,
    show ¬ ("flamegraph" = "ssv") by decide, show ¬ ("flamegraph" = "aof") by decide,
    show ¬ ("flamegraph" = "memory") by decide, show ¬ ("flamegraph" = "bigkey") by decide,
    if_false, if_true]
  generalize env.helperErr _ = e
  cases e <;> simp [helperCalls]

/-- C1: when parsing succeeds with a source file and one of the six command
names, `main` makes exactly one helper call, to the helper of that command,
with the source file, and the parsed `-o`, `-n`, `-port` and `-sep` values
unchanged. -/
theorem main_dispatch (env : Env) (args : List String) (v : Vars) (rest : List String)
    (hp : Parse env Vars.init args = .ok (v, rest)) (hsrc : Arg rest 0 ≠ "") :
    (v.cmd = "json" → helperCalls (main env args)
        = [Call.ToJsons (Arg rest 0) v.output (variadic true (buildOptions v))]) ∧
    (v.cmd = "ssv" → helperCalls (main env args)
        = [Call.ToSSV (Arg rest 0) v.output (variadic true (buildOptions v))]) ∧
    (v.cmd = "aof" → helperCalls (main env args)
        = [Call.ToAOF (Arg rest 0) v.output (variadic false (buildOptions v))]) ∧
    (v.cmd = "memory" → helperCalls (main env args)
        = [Call.MemoryProfile (Arg rest 0) v.output (variadic true (buildOptions v))]) ∧
    (v.cmd = "bigkey" → ∃ w, helperCalls (main env args)
        = [Call.FindBiggestKeys (Arg rest 0) v.n w (variadic true (buildOptions v))]) ∧
    (v.cmd = "flamegraph" → helperCalls (main env args)
        = [Call.FlameGraph (Arg rest 0) v.port v.seps (variadic true (buildOptions v))]) := by
  refine ⟨?_, ?_, ?_, ?_, ?_, ?_⟩ <;> intro hc <;>
    rw [main_eq_dispatch env args v rest hp (by simp [hc]) hsrc]
  · exact dispatch_json env v _ hc
  · exact dispatch_ssv env v _ hc
  · exact dispatch_aof env v _ hc
  · exact dispatch_memory env v _ hc
  · exact ⟨_, dispatch_bigkey env v _ hc⟩
  · exact dispatch_flamegraph env v _ hc

/-- C1 on `rdb -c json -o dump.json dump.rdb`: the one call is `ToJsons` with
the source file and the output path of the command line. -/
theorem main_dispatch_witness :
    helperCalls (main (Env.simple [] []) ["-c", "json", "-o", "dump.json", "dump.rdb"])
      = [Call.ToJsons "dump.rdb" "dump.json" []] :=
  (main_dispatch (Env.simple [] []) ["-c", "json", "-o", "dump.json", "dump.rdb"]
    { Vars.init with cmd := "json", output := "dump.json" } ["dump.rdb"] rfl
    (by decide)).1 rfl

/-! ## Separators -/

/-- One `-sep value` pair on the command line appends `value` to the
separator list, whatever the string `value` is, and parsing goes on. -/
theorem Parse_sep (env : Env) (v : Vars) (value : String) (rest : List String) :
    Parse env v ("-sep" :: value :: rest)
      = Parse env { v with seps := v.seps ++ [value] } rest := by
  rfl

/-- A run of `-sep` pairs appends its values in order. -/
theorem Parse_sepArgs (env : Env) (ss : List String) :
    ∀ (v : Vars) (post : List String),
      Parse env v (sepArgs ss ++ post) = Parse env { v with seps := v.seps ++ ss } post := by
  induction ss with
  | nil => intro v post; cases v; simp [sepArgs]
  | cons s ss ih =>
    intro v post
    simp only [sepArgs, List.cons_append]
    rw [Parse_sep, ih]
    simp

/-- Parsing stops at an argument that is not a flag and leaves it, and what
follows it, as the remaining arguments. -/
theorem Parse_positional (env : Env) (v : Vars) (src : String) (rest : List String)
    (h : classify src = Token.positional) :
    Parse env v (src :: rest) = .ok (v, src :: rest) := by
  simp [Parse, h]

/-- C5: `separators.Set` returns no error and appends its argument at the end
of the list, the earlier elements staying as they were; so a run of `-sep`
pairs extends the list by its values in order, and after
`-c flamegraph -sep s1 ... -sep sk src` the list passed to `FlameGraph` is
`[s1, ..., sk]`, for any strings. -/
theorem separators_in_order :
    (∀ (s : separators) (value : String),
        (separators.Set s value).2 = none ∧
        (separators.Set s value).1.length = s.length + 1 ∧
        (∀ i, i < s.length → (separators.Set s value).1[i]? = s[i]?) ∧
        (separators.Set s value).1[s.length]? = some value) ∧
    (∀ (env : Env) (ss : List String) (v : Vars) (post : List String),
        Parse env v (sepArgs ss ++ post) = Parse env { v with seps := v.seps ++ ss } post) ∧
    (∀ (env : Env) (ss : List String) (src : String),
        classify src = Token.positional → src ≠ "" →
        helperCalls (main env (["-c", "flamegraph"] ++ sepArgs ss ++ [src]))
          = [Call.FlameGraph src 0 ss []]) := by
  refine ⟨?_, ?_, ?_⟩
  · intro s value
    refine ⟨rfl, by simp [separators.Set], ?_, by simp [separators.Set]⟩
    intro i hi
    simp [separators.Set, List.getElem?_append_left hi]
  · intro env ss v post
    exact Parse_sepArgs env ss v post
  · intro env ss src hpos hsrc
    have hp : Parse env Vars.init (["-c", "flamegraph"] ++ sepArgs ss ++ [src])
        = .ok ({ Vars.init with cmd := "flamegraph", seps := ss }, [src]) := by
      have h1 : Parse env Vars.init (["-c", "flamegraph"] ++ sepArgs ss ++ [src])
          = Parse env { Vars.init with cmd := "flamegraph" } (sepArgs ss ++ [src]) := rfl
      rw [h1, Parse_sepArgs, Parse_positional env _ src [] hpos]
      simp [Vars.init]
    rw [main_eq_dispatch env _ _ _ hp (by simp) (by simpa [Arg] using hsrc),
      dispatch_flamegraph env _ _ rfl]
    simp [Arg, buildOptions, variadic, Vars.init]

/-- C5 on `rdb -c flamegraph -sep : -sep "" -sep : -sep -c dump.rdb`: the
list keeps duplicates, the empty string and a value that looks like a flag,
in command-line order. -/
theorem separators_in_order_witness :
    classify "dump.rdb" = Token.positional ∧ "dump.rdb" ≠ "" ∧
    helperCalls (main (Env.simple [] [])
        ["-c", "flamegraph", "-sep", ":", "-sep", "", "-sep", ":", "-sep", "-c", "dump.rdb"])
      = [Call.FlameGraph "dump.rdb" 0 [":", "", ":", "-c"] []] :=
  ⟨by decide, by decide,
   separators_in_order.2.2 (Env.simple [] []) [":", "", ":", "-c"] "dump.rdb"
     (by decide) (by decide)⟩

/-- Only the name `sep` is bound to the separator list. -/
theorem lookup_seps (name : String) (h : formal.lookup name = some Target.seps) :
    name = "sep" := by
  simp only [formal, List.lookup] at h
  repeat' split at h
  all_goals first
    | (simp at h; done)
    | (rename_i hh; simpa using hh)

/-- Only the name `n` is bound to the count. -/
theorem lookup_n (name : String) (h : formal.lookup name = some Target.n) :
    name = "n" := by
  simp only [formal, List.lookup] at h
  repeat' split at h
  all_goals first
    | (simp at h; done)
    | (rename_i hh; simpa using hh)

/-- Setting any other flag leaves the separator list as it is. -/
theorem set_keeps_seps (env : Env) (t : Target) (value : String) (v v2 : Vars)
    (ht : t ≠ Target.seps) (h : t.set env value v = some v2) : v2.seps = v.seps := by
  cases t
  case seps => exact absurd rfl ht
  all_goals
    simp [Target.set] at h
    first
      | (subst h; rfl)
      | (rcases h with ⟨_, rfl⟩ | ⟨_, rfl⟩ <;> rfl)
      | (obtain ⟨_, _, rfl⟩ := h; rfl)

/-- Setting any other flag leaves the count as it is. -/
theorem set_keeps_n (env : Env) (t : Target) (value : String) (v v2 : Vars)
    (ht : t ≠ Target.n) (h : t.set env value v = some v2) : v2.n = v.n := by
  cases t
  case n => exact absurd rfl ht
  all_goals
    simp [Target.set, separators.Set] at h
    first
      | (subst h; rfl)
      | (rcases h with ⟨_, rfl⟩ | ⟨_, rfl⟩ <;> rfl)
      | (obtain ⟨_, _, rfl⟩ := h; rfl)

/-- Parsing arguments none of which reads as the flag `name0` leaves every
component of the variables that only that flag sets as it is. -/
theorem Parse_keeps {α : Type} (env : Env) (tgt : Target) (name0 : String) (p : Vars → α)
    (hlook : ∀ name, formal.lookup name = some tgt → name = name0)
    (hset : ∀ t value v v2, t ≠ tgt → t.set env value v = some v2 → p v2 = p v) :
    ∀ (n : Nat) (args : List String), args.length ≤ n → ∀ (v0 v : Vars) (rest : List String),
      (∀ a ∈ args, readsAsFlag name0 a = false) →
      Parse env v0 args = .ok (v, rest) → p v = p v0 := by
  intro n
  induction n with
  | zero =>
    intro args hn v0 v rest _ h
    have : args = [] := List.length_eq_zero.mp (Nat.le_zero.mp hn)
    subst this
    simp [Parse] at h
    rw [h.1]
  | succ n ih =>
    intro args hn v0 v rest hno h
    cases args with
    | nil =>
      simp [Parse] at h
      rw [h.1]
    | cons s args =>
      have hs := hno s (List.mem_cons_self _ _)
      have hargs : ∀ a ∈ args, readsAsFlag name0 a = false :=
        fun a ha => hno a (List.mem_cons_of_mem _ ha)
      have hlen : args.length ≤ n := by simpa using hn
      rw [Parse] at h
      split at h
      · simp at h; rw [h.1]
      · simp at h; rw [h.1]
      · simp at h
      · rename_i name value hcl
        have hname : name ≠ name0 := by
          simpa [readsAsFlag, hcl] using hs
        split at h
        · split at h <;> simp at h
        · rename_i t hlook2
          have ht : t ≠ tgt := by
            intro hh; subst hh; exact hname (hlook name hlook2)
          split at h
          · split at h
            · simp at h
            · rename_i v2 hs2
              rw [ih args hlen v2 v rest hargs h, hset t _ v0 v2 ht hs2]
          · split at h
            · split at h
              · simp at h
              · rename_i v2 hs2
                rw [ih args hlen v2 v rest hargs h, hset t _ v0 v2 ht hs2]
            · split at h
              · simp at h
              · rename_i x args2
                split at h
                · simp at h
                · rename_i v2 hs2
                  have hlen2 : args2.length ≤ n := by
                    simp at hlen; omega
                  have hargs2 : ∀ a ∈ args2, readsAsFlag name0 a = false :=
                    fun a ha => hargs a (List.mem_cons_of_mem _ ha)
                  rw [ih args2 hlen2 v2 v rest hargs2 h, hset t _ v0 v2 ht hs2]

/-- Parsing arguments none of which reads as the flag `sep` leaves the
separator list as it is. -/
theorem Parse_keeps_seps (env : Env) (args : List String) (v0 v : Vars) (rest : List String)
    (hno : ∀ a ∈ args, isSepFlag a = false) (hp : Parse env v0 args = .ok (v, rest)) :
    v.seps = v0.seps :=
  Parse_keeps env Target.seps "sep" Vars.seps lookup_seps (set_keeps_seps env)
    args.length args (Nat.le_refl _) v0 v rest hno hp

/-- Parsing arguments none of which reads as the flag `n` leaves the count as
it is. -/
theorem Parse_keeps_n (env : Env) (args : List String) (v0 v : Vars) (rest : List String)
    (hno : ∀ a ∈ args, readsAsFlag "n" a = false) (hp : Parse env v0 args = .ok (v, rest)) :
    v.n = v0.n :=
  Parse_keeps env Target.n "n" Vars.n lookup_n (set_keeps_n env)
    args.length args (Nat.le_refl _) v0 v rest hno hp

/-- When no argument reads as the flag `sep`, the separator list `main` hands
to `FlameGraph` is empty: `main` itself puts no default separator into it. -/
theorem flamegraph_no_sep (env : Env) (args : List String) (v : Vars) (rest : List String)
    (hp : Parse env Vars.init args = .ok (v, rest))
    (hno : ∀ a ∈ args, isSepFlag a = false)
    (hc : v.cmd = "flamegraph") (hsrc : Arg rest 0 ≠ "") :
    helperCalls (main env args)
      = [Call.FlameGraph (Arg rest 0) v.port [] (variadic true (buildOptions v))] := by
  have hseps : v.seps = [] := Parse_keeps_seps env args Vars.init v rest hno hp
  rw [main_eq_dispatch env args v rest hp (by simp [hc]) hsrc,
    dispatch_flamegraph env v _ hc, hseps]

/-- With at least one `-sep` pair on the command line, the separator list the
flamegraph command works with is the list of the values given, in order: the
default does not come into it. -/
theorem flamegraph_given_separators (env : Env) (s : String) (ss : List String)
    (src : String) (hpos : classify src = Token.positional) (hsrc : src ≠ "") :
    flamegraphSeparators (main env (["-c", "flamegraph"] ++ sepArgs (s :: ss) ++ [src]))
      = [s :: ss] := by
  have hp : Parse env Vars.init (["-c", "flamegraph"] ++ sepArgs (s :: ss) ++ [src])
      = .ok ({ Vars.init with cmd := "flamegraph", seps := s :: ss }, [src]) := by
    have h1 : Parse env Vars.init (["-c", "flamegraph"] ++ sepArgs (s :: ss) ++ [src])
        = Parse env { Vars.init with cmd := "flamegraph" } (sepArgs (s :: ss) ++ [src]) := rfl
    rw [h1, Parse_sepArgs, Parse_positional env _ src [] hpos]
    simp [Vars.init]
  have hcalls := dispatch_flamegraph env
    { Vars.init with cmd := "flamegraph", seps := s :: ss } (Arg [src] 0) rfl
  rw [← main_eq_dispatch env _ _ _ hp (by simp) (by simpa [Arg] using hsrc)] at hcalls
  rw [flamegraphSeparators, hcalls]
  simp [FlameGraph.usedSeparators]

/-- C6: when no argument reads as the flag `sep`, `main` calls `FlameGraph`
once, with the empty separator list, and the separator list the flamegraph
command then works with is the default, the single separator ":". -/
theorem flamegraph_default_separator (env : Env) (args : List String) (v : Vars)
    (rest : List String)
    (hp : Parse env Vars.init args = .ok (v, rest))
    (hno : ∀ a ∈ args, isSepFlag a = false)
    (hc : v.cmd = "flamegraph") (hsrc : Arg rest 0 ≠ "") :
    helperCalls (main env args)
      = [Call.FlameGraph (Arg rest 0) v.port [] (variadic true (buildOptions v))] ∧
    flamegraphSeparators (main env args) = [[":"]] := by
  have h := flamegraph_no_sep env args v rest hp hno hc hsrc
  refine ⟨h, ?_⟩
  simp [flamegraphSeparators, h, FlameGraph.usedSeparators]

/-- C6 on `rdb -c flamegraph -port 16379 dump.rdb`: no argument reads as the
flag `sep`, `FlameGraph` is called with the empty list and works with the
separator ":". -/
theorem flamegraph_default_separator_witness :
    (∀ a ∈ ["-c", "flamegraph", "-port", "16379", "dump.rdb"], isSepFlag a = false) ∧
    helperCalls (main (Env.simple [("16379", 16379)] [])
        ["-c", "flamegraph", "-port", "16379", "dump.rdb"])
      = [Call.FlameGraph "dump.rdb" 16379 [] []] ∧
    flamegraphSeparators (main (Env.simple [("16379", 16379)] [])
        ["-c", "flamegraph", "-port", "16379", "dump.rdb"]) = [[":"]] :=
  ⟨by decide,
   flamegraph_default_separator (Env.simple [("16379", 16379)] [])
     ["-c", "flamegraph", "-port", "16379", "dump.rdb"]
     { Vars.init with cmd := "flamegraph", port := 16379 } ["dump.rdb"] rfl (by decide) rfl
     (by decide)⟩

/-! ## Options handed to the helpers -/

/-- C2 fails for `aof`: on `rdb -c aof -regex ^a dump.rdb` the variadic
parameter of `ToAOF` holds one element, the whole options slice, where on
`rdb -c json -regex ^a dump.rdb` that of `ToJsons` holds the regex option
itself; and whatever the options list is, the sequence `ToAOF` receives differs from it. -/
theorem aof_options_not_spread :
    helperCalls (main (Env.simple [] []) ["-c", "aof", "-regex", "^a", "dump.rdb"])
      = [Call.ToAOF "dump.rdb" "" [Iface.slice [HelperOption.WithRegexOption "^a"]]] ∧
    helperCalls (main (Env.simple [] []) ["-c", "json", "-regex", "^a", "dump.rdb"])
      = [Call.ToJsons "dump.rdb" "" [Iface.value (HelperOption.WithRegexOption "^a")]] ∧
    (∀ xs : List HelperOption, variadic false xs ≠ xs.map Iface.value) := by
  refine ⟨by decide, by decide, ?_⟩
  intro xs h
  cases xs with
  | nil => simp [variadic] at h
  | cons x xs => simp [variadic] at h

/-! ## The output of `bigkey` -/

/-- When `-o` is empty, `FindBiggestKeys` writes to standard output; when
`os.Create` succeeds on the `-o` path, to the file created at that path; when
`os.Create` fails, it is called all the same, with a nil file. -/
theorem bigkey_destination (env : Env) (args : List String) (v : Vars) (rest : List String)
    (hp : Parse env Vars.init args = .ok (v, rest)) (hc : v.cmd = "bigkey")
    (hsrc : Arg rest 0 ≠ "") :
    (v.output = "" → helperCalls (main env args)
      = [Call.FindBiggestKeys (Arg rest 0) v.n File.stdout (variadic true (buildOptions v))]) ∧
    (v.output ≠ "" → env.createErr v.output = none → helperCalls (main env args)
      = [Call.FindBiggestKeys (Arg rest 0) v.n (File.created v.output)
          (variadic true (buildOptions v))]) ∧
    (v.output ≠ "" → env.createErr v.output ≠ none → helperCalls (main env args)
      = [Call.FindBiggestKeys (Arg rest 0) v.n File.nilFile
          (variadic true (buildOptions v))]) := by
  rw [main_eq_dispatch env args v rest hp (by simp [hc]) hsrc, dispatch_bigkey env v _ hc]
  refine ⟨?_, ?_, ?_⟩
  · intro ho; simp [ho]
  · intro ho hce; simp [ho, hce]
  · intro ho hce; simp [ho, hce]

/-- Without a flag `-n` on the command line, the count `FindBiggestKeys`
receives is 0. -/
theorem bigkey_default_n (env : Env) (args : List String) (v : Vars) (rest : List String)
    (hp : Parse env Vars.init args = .ok (v, rest))
    (hno : ∀ a ∈ args, readsAsFlag "n" a = false) (hc : v.cmd = "bigkey")
    (hsrc : Arg rest 0 ≠ "") :
    ∃ w, helperCalls (main env args)
      = [Call.FindBiggestKeys (Arg rest 0) 0 w (variadic true (buildOptions v))] := by
  have hn : v.n = 0 := Parse_keeps_n env args Vars.init v rest hno hp
  rw [main_eq_dispatch env args v rest hp (by simp [hc]) hsrc,
    dispatch_bigkey env v _ hc, hn]
  exact ⟨_, rfl⟩

/-- C4 fails when `os.Create` fails: on `rdb -c bigkey -o /no/such/dir/top.txt
dump.rdb`, with the directory missing, `main` reports the failure and goes
on to call `FindBiggestKeys` with a nil file, not with a file created at the
`-o` path. -/
theorem bigkey_create_failure :
    main (Env.simple [] ["/no/such/dir/top.txt"])
        ["-c", "bigkey", "-o", "/no/such/dir/top.txt", "dump.rdb"]
      = [ Event.osCreate "/no/such/dir/top.txt",
          Event.printf "open output faild: %v" "no such file or directory",
          Event.call (Call.FindBiggestKeys "dump.rdb" 0 File.nilFile []),
          Event.close File.nilFile ] := by
  decide

/-! ## The name of the field flag -/

/-- C7 fails: the option list of the help text prints `-field`, the flag set
has no flag of that name (the flag is `fields`), and on
`rdb -c json -field key dump.rdb` the process ends with status 2 before any
helper is called, where `-fields key` reaches `ToJsons` as the field
option. -/
theorem field_flag_name_mismatch :
    helpOptionNames = ["c", "o", "n", "port", "sep", "regex", "no-expired", "field"] ∧
    flagNames = ["c", "o", "n", "port", "sep", "regex", "no-expired", "fields"] ∧
    formal.lookup "field" = none ∧
    main (Env.simple [] []) ["-c", "json", "-field", "key", "dump.rdb"]
      = [Event.flagFailure (FlagError.notDefined "field"), Event.osExit 2] ∧
    helperCalls (main (Env.simple [] []) ["-c", "json", "-fields", "key", "dump.rdb"])
      = [Call.ToJsons "dump.rdb" "" [Iface.value (HelperOption.WithFieldOption "key")]] := by
  refine ⟨by decide, by decide, by decide, by decide, by decide⟩

end Rdb
